import Mathlib

/-!
Verification of the broken-axis segmentation and draw orchestration of
`src/widgets/axisbroken.py` (class `AxisBroken`).

The numeric domain is modelled with `ℚ` (the Python code uses floats, but
every claim checked here is about exact structural arithmetic: list shapes,
linear interpolation, fixed constants such as `breakgap = 0.05`).

Shallow embedding conventions:
* pure computations of `updateAxisLocation` / `computePlottedRange` become
  Lean functions on lists of rationals;
* Python list indexing `xs[i]` inside the comprehensions becomes `List.getD`
  (indices are proved in range where a claim needs it);
* `list.sort()` becomes `List.insertionSort (· ≤ ·)` (a stable sort, as in
  Python).
-/

namespace AxisBroken

/-- `breakgap = 0.05` from `updateAxisLocation` (axisbroken.py line 113). -/
def breakgap : ℚ := 1 / 20

/-- Lines 100-110 of `updateAxisLocation`: sort the user supplied break
positions and, if fewer positions than break pairs were given, append the
values `N.arange(1, num-len(posns)+1) * ((1.-start)/(num-len(posns)+1) + start)`
where `start` is the last explicit position (or 0).  `breakPoints` only
enters through `num = len(points) / 2`. -/
def resolvePosns (breakPoints breakPosns : List ℚ) : List ℚ :=
  let num := breakPoints.length / 2
  let posns := breakPosns.insertionSort (· ≤ ·)
  if posns.length < num then
    let start : ℚ := posns.getLastD 0
    let k := num - posns.length
    posns ++ (List.range k).map
      (fun (j : ℕ) => ((j : ℚ) + 1) * ((1 - start) / ((k : ℚ) + 1) + start))
  else
    posns

/-- Lines 116-123: `posstarts = [0.]` then `pos + breakgap/2` per position. -/
def posstarts (posns : List ℚ) : List ℚ :=
  0 :: posns.map (fun p => p + breakgap / 2)

/-- Lines 116-123: `pos - breakgap/2` per position, then `1.` appended. -/
def posstops (posns : List ℚ) : List ℚ :=
  posns.map (fun p => p - breakgap / 2) ++ [1]

/-- Line 131: `self.breakvnum = len(points)/2 + 1` (Python 2 floor division). -/
def breakvnum (breakPoints : List ℚ) : ℕ :=
  breakPoints.length / 2 + 1

/-- Lines 132-133: `[plottedrange[0]] + points[:len(points)/2*2] + [plottedrange[1]]`. -/
def breakvlist (lo hi : ℚ) (breakPoints : List ℚ) : List ℚ :=
  lo :: (breakPoints.take (breakPoints.length / 2 * 2) ++ [hi])

/-- Line 136: `[self.breakvlist[i*2] for i in xrange(num)]`. -/
def breakvstarts (lo hi : ℚ) (breakPoints : List ℚ) : List ℚ :=
  (List.range (breakvnum breakPoints)).map
    (fun i => (breakvlist lo hi breakPoints).getD (i * 2) 0)

/-- Line 137: `[self.breakvlist[i*2+1] for i in xrange(num)]`. -/
def breakvstops (lo hi : ℚ) (breakPoints : List ℚ) : List ℚ :=
  (List.range (breakvnum breakPoints)).map
    (fun i => (breakvlist lo hi breakPoints).getD (i * 2 + 1) 0)

/-- One derived axis segment: the value sub-range selected by `switchBreak`
(line 70) and the fractional position sub-range used by
`updateAxisLocation` (lines 82-93). -/
structure Segment where
  valueRange : ℚ × ℚ
  posRange : ℚ × ℚ
  deriving DecidableEq

instance : Inhabited Segment := ⟨⟨(0, 0), (0, 0)⟩⟩

/-- The full segmentation: segment `i` pairs `(breakvstarts[i], breakvstops[i])`
(from `computePlottedRange` / `switchBreak`) with `(posstarts[i], posstops[i])`
(from `updateAxisLocation`). -/
def segments (lo hi : ℚ) (breakPoints breakPosns : List ℚ) : List Segment :=
  let posns := resolvePosns breakPoints breakPosns
  let starts := posstarts posns
  let stops := posstops posns
  (List.range (breakvnum breakPoints)).map
    (fun i =>
      { valueRange := ((breakvstarts lo hi breakPoints).getD i 0,
                       (breakvstops lo hi breakPoints).getD i 0),
        posRange := (starts.getD i 0, stops.getD i 0) })

/-! ### Basic list lemmas about the embedding -/

theorem getD_range_map {α : Type} (f : ℕ → α) (d : α) {n i : ℕ} (h : i < n) :
    (((List.range n).map f).getD i d) = f i := by
  rw [List.getD_eq_getElem?_getD, List.getElem?_map, List.getElem?_range h]
  rfl

theorem length_segments (lo hi : ℚ) (breakPoints breakPosns : List ℚ) :
    (segments lo hi breakPoints breakPosns).length = breakPoints.length / 2 + 1 := by
  simp [segments, breakvnum]

theorem length_breakvlist (lo hi : ℚ) (points : List ℚ) :
    (breakvlist lo hi points).length = points.length / 2 * 2 + 2 := by
  have h : points.length / 2 * 2 ≤ points.length := Nat.div_mul_le_self _ _
  simp [breakvlist, List.length_take, Nat.min_eq_left h]

theorem length_resolvePosns (points posns : List ℚ) :
    (resolvePosns points posns).length = max posns.length (points.length / 2) := by
  simp only [resolvePosns]
  split
  · rename_i h
    simp only [List.length_append, List.length_map, List.length_range,
      List.length_insertionSort]
    rw [List.length_insertionSort] at h
    omega
  · rename_i h
    rw [List.length_insertionSort] at h ⊢
    omega

theorem getD_map_of_lt (f : ℚ → ℚ) (l : List ℚ) {i : ℕ} (h : i < l.length) :
    (l.map f).getD i 0 = f (l.getD i 0) := by
  rw [List.getD_eq_getElem?_getD, List.getElem?_map, List.getElem?_eq_getElem h,
    List.getD_eq_getElem?_getD, List.getElem?_eq_getElem h]
  rfl

theorem getD_append_of_lt (l₁ l₂ : List ℚ) {i : ℕ} (h : i < l₁.length) :
    (l₁ ++ l₂).getD i 0 = l₁.getD i 0 := by
  rw [List.getD_eq_getElem?_getD, List.getElem?_append_left h, ← List.getD_eq_getElem?_getD]

theorem take_even_length (q : List ℚ) :
    (q.take (q.length / 2 * 2)).length = q.length / 2 * 2 := by
  simp only [List.length_take]
  omega

theorem resolvePosns_congr {points points' : List ℚ} (posns : List ℚ)
    (h : points.length / 2 = points'.length / 2) :
    resolvePosns points posns = resolvePosns points' posns := by
  simp only [resolvePosns, h]

theorem breakvlist_take (lo hi : ℚ) (q : List ℚ) :
    breakvlist lo hi (q.take (q.length / 2 * 2)) = breakvlist lo hi q := by
  unfold breakvlist
  rw [take_even_length]
  have h2 : q.length / 2 * 2 / 2 * 2 = q.length / 2 * 2 := by omega
  rw [h2, List.take_take]
  have h3 : min (q.length / 2 * 2) (q.length / 2 * 2) = q.length / 2 * 2 :=
    Nat.min_self _
  rw [h3]

theorem segments_take (lo hi : ℚ) (q posns : List ℚ) :
    segments lo hi (q.take (q.length / 2 * 2)) posns = segments lo hi q posns := by
  have hnum : (q.take (q.length / 2 * 2)).length / 2 = q.length / 2 := by
    rw [take_even_length]; omega
  unfold segments breakvstarts breakvstops breakvnum
  rw [breakvlist_take, hnum, resolvePosns_congr posns hnum]

/-! ### Claim theorems for the pure segmentation -/

/-- Claim C1: for every full value range `(lo, hi)` and every `breakPoints`
list, the segmentation has exactly `floor(len(breakPoints)/2) + 1` segments;
with `flat = [lo] ++ (first 2*numBreaks entries of breakPoints) ++ [hi]`,
segment `i` has `valueRange = (flat[2i], flat[2i+1])`; and an odd trailing
`breakPoints` entry is ignored (truncating `breakPoints` to even length
leaves the segmentation unchanged). -/
theorem segmentation_counts_and_value_ranges
    (lo hi : ℚ) (breakPoints breakPosns : List ℚ) (i : ℕ)
    (h : i < (segments lo hi breakPoints breakPosns).length) :
    (segments lo hi breakPoints breakPosns).length = breakPoints.length / 2 + 1 ∧
    ((segments lo hi breakPoints breakPosns).getD i default).valueRange =
      ((lo :: (breakPoints.take (2 * (breakPoints.length / 2)) ++ [hi])).getD (2 * i) 0,
       (lo :: (breakPoints.take (2 * (breakPoints.length / 2)) ++ [hi])).getD (2 * i + 1) 0) ∧
    segments lo hi (breakPoints.take (2 * (breakPoints.length / 2))) breakPosns =
      segments lo hi breakPoints breakPosns := by
  rw [length_segments] at h
  have hvn : i < breakvnum breakPoints := h
  refine ⟨length_segments lo hi breakPoints breakPosns, ?_, ?_⟩
  · have hseg : (segments lo hi breakPoints breakPosns).getD i default =
        { valueRange := ((breakvstarts lo hi breakPoints).getD i 0,
                         (breakvstops lo hi breakPoints).getD i 0),
          posRange := ((posstarts (resolvePosns breakPoints breakPosns)).getD i 0,
                       (posstops (resolvePosns breakPoints breakPosns)).getD i 0) } := by
      unfold segments
      exact getD_range_map _ _ hvn
    rw [hseg]
    unfold breakvstarts breakvstops
    rw [getD_range_map _ _ hvn, getD_range_map _ _ hvn]
    unfold breakvlist
    rw [Nat.mul_comm 2 (breakPoints.length / 2), Nat.mul_comm i 2]
  · rw [Nat.mul_comm 2 (breakPoints.length / 2)]
    exact segments_take lo hi breakPoints breakPosns

/-- Claim C2: the fractional position lists are
`posstarts = [0] ++ [p + breakgap/2 for p in posns]` and
`posstops = [p - breakgap/2 for p in posns] ++ [1]` with `breakgap = 0.05`;
hence segment 0 starts at fraction 0, the last segment ends at fraction 1,
and adjacent segments are separated by a gap of exactly `breakgap`. -/
theorem position_lists_and_gap (posns : List ℚ) (i : ℕ) (h : i < posns.length) :
    breakgap = 1 / 20 ∧
    posstarts posns = 0 :: posns.map (fun p => p + breakgap / 2) ∧
    posstops posns = posns.map (fun p => p - breakgap / 2) ++ [1] ∧
    (posstarts posns).getD 0 0 = 0 ∧
    (posstops posns).getLast? = some 1 ∧
    (posstarts posns).getD (i + 1) 0 - (posstops posns).getD i 0 = breakgap := by
  refine ⟨rfl, rfl, rfl, rfl, ?_, ?_⟩
  · unfold posstops
    simp
  · have hstart : (posstarts posns).getD (i + 1) 0 =
        posns.getD i 0 + breakgap / 2 := by
      unfold posstarts
      rw [List.getD_cons_succ, getD_map_of_lt _ _ h]
    have hstop : (posstops posns).getD i 0 = posns.getD i 0 - breakgap / 2 := by
      unfold posstops
      rw [getD_append_of_lt _ _ (by simpa using h), getD_map_of_lt _ _ h]
    rw [hstart, hstop]
    ring

/-- Claim C4: with empty `breakPoints` (and the default empty break-position
list) the segmentation is a single segment covering the whole value range at
full fractional extent `(0, 1)`: the broken axis reduces to the unbroken
case. -/
theorem empty_breaks_single_segment (lo hi : ℚ) :
    segments lo hi [] [] = [{ valueRange := (lo, hi), posRange := (0, 1) }] :=
  rfl

/-- Claim C5: the end-to-end example `fullRange = (0, 100)`,
`breakPoints = [20, 40]`, empty `breakPosns`: exactly two segments,
`(0,20)` at fractions `(0, 0.475)` and `(40,100)` at fractions `(0.525, 1)`,
with the gap centred at fraction `0.5`. -/
theorem end_to_end_example :
    segments 0 100 [20, 40] [] =
      [{ valueRange := (0, 20), posRange := (0, 19/40) },
       { valueRange := (40, 100), posRange := (21/40, 1) }] ∧
    (19/40 : ℚ) = 0.475 ∧ (21/40 : ℚ) = 0.525 ∧
    ((19/40 : ℚ) + 21/40) / 2 = 1/2 := by
  refine ⟨?_, by norm_num, by norm_num, by norm_num⟩
  norm_num [segments, breakvnum, breakvlist, breakvstarts, breakvstops,
    resolvePosns, posstarts, posstops, breakgap, List.insertionSort,
    List.orderedInsert, List.getLastD, List.range_succ, List.getD,
    Segment.mk.injEq, Prod.ext_iff]

/-- Modelled from the spec (§3 BreakPositions, §4.1 step 3; the spec is the
authority for the intended synthesis rule): missing break positions are
synthesized by evenly subdividing the remaining fraction
`[lastExplicit (or 0), 1]` of the axis length, i.e. the j-th synthesized
value is `start + j * (1 - start) / (k + 1)`; the synthesized values are
appended to the sorted explicit list. -/
def specResolvePosns (breakPoints breakPosns : List ℚ) : List ℚ :=
  let num := breakPoints.length / 2
  let posns := breakPosns.insertionSort (· ≤ ·)
  if posns.length < num then
    let start : ℚ := posns.getLastD 0
    let k := num - posns.length
    posns ++ (List.range k).map
      (fun (j : ℕ) => start + ((j : ℚ) + 1) * ((1 - start) / ((k : ℚ) + 1)))
  else
    posns

/-- Claim C3 (code bug): with three break pairs and one explicit position
`0.5`, the code's synthesis `j * ((1-start)/(k+1) + start)` produces
`[1/2, 2/3, 4/3]` — the value `4/3` is not an even subdivision of
`[1/2, 1]` and lies outside the fractional axis range `[0, 1]` — while the
spec's even subdivision gives `[1/2, 2/3, 5/6]`.  With no explicit
positions (`start = 0`) the two rules agree, e.g. two synthesized
positions are `[1/3, 2/3]`, evenly spaced across `(0, 1)`. -/
theorem position_synthesis_bug :
    resolvePosns [0, 1, 2, 3, 4, 5] [1/2] = [1/2, 2/3, 4/3] ∧
    specResolvePosns [0, 1, 2, 3, 4, 5] [1/2] = [1/2, 2/3, 5/6] ∧
    ¬ ((4/3 : ℚ) ≤ 1) ∧
    resolvePosns [0, 1, 2, 3] [] = [1/3, 2/3] ∧
    specResolvePosns [0, 1, 2, 3] [] = [1/3, 2/3] := by
  refine ⟨?_, ?_, by norm_num, ?_, ?_⟩ <;>
    norm_num [resolvePosns, specResolvePosns, List.insertionSort,
      List.orderedInsert, List.getLastD, List.range_succ]

/-- Claim C10: after position resolution, `posstarts` and `posstops` both
have length `max(len(breakPosns), floor(len(breakPoints)/2)) + 1`, which is
at least `breakvnum`, so indexing them (and `breakvstarts`/`breakvstops`,
both of length `breakvnum`) at any segment index `i < breakvnum` stays in
range; moreover `posstarts[0] = 0` and `posstops[-1] = 1`. -/
theorem position_lists_safe_indexing
    (lo hi : ℚ) (breakPoints breakPosns : List ℚ) (i : ℕ)
    (h : i < breakvnum breakPoints) :
    (posstarts (resolvePosns breakPoints breakPosns)).length
        = max breakPosns.length (breakPoints.length / 2) + 1 ∧
    (posstops (resolvePosns breakPoints breakPosns)).length
        = max breakPosns.length (breakPoints.length / 2) + 1 ∧
    breakvnum breakPoints ≤ max breakPosns.length (breakPoints.length / 2) + 1 ∧
    i < (posstarts (resolvePosns breakPoints breakPosns)).length ∧
    i < (posstops (resolvePosns breakPoints breakPosns)).length ∧
    (breakvstarts lo hi breakPoints).length = breakvnum breakPoints ∧
    (breakvstops lo hi breakPoints).length = breakvnum breakPoints ∧
    i < (breakvstarts lo hi breakPoints).length ∧
    i < (breakvstops lo hi breakPoints).length ∧
    (posstarts (resolvePosns breakPoints breakPosns)).getD 0 0 = 0 ∧
    (posstops (resolvePosns breakPoints breakPosns)).getLast? = some 1 := by
  have hs : (posstarts (resolvePosns breakPoints breakPosns)).length
      = max breakPosns.length (breakPoints.length / 2) + 1 := by
    simp [posstarts, length_resolvePosns]
  have ht : (posstops (resolvePosns breakPoints breakPosns)).length
      = max breakPosns.length (breakPoints.length / 2) + 1 := by
    simp [posstops, length_resolvePosns]
  have hvn : breakvnum breakPoints ≤ max breakPosns.length (breakPoints.length / 2) + 1 := by
    unfold breakvnum
    omega
  have hlen1 : (breakvstarts lo hi breakPoints).length = breakvnum breakPoints := by
    simp [breakvstarts]
  have hlen2 : (breakvstops lo hi breakPoints).length = breakvnum breakPoints := by
    simp [breakvstops]
  refine ⟨hs, ht, hvn, by omega, by omega, hlen1, hlen2, by omega, by omega, rfl, ?_⟩
  unfold posstops
  simp

/-! ### Draw-pass embedding (`_axisDraw`, `_autoMirrorDraw`, `switchBreak`) -/

/-- Mutable fields of the `AxisBroken` widget touched by one draw pass:
`rangeswitch`/`plottedrange` (`switchBreak`, lines 64-71), the per-segment
value lists cached by `computePlottedRange` (`orig_plottedrange`,
`breakvstarts`, `breakvstops`, lines 129-137; `vstarts.length` plays the
role of `breakvnum`), the label-overflow accumulator `_delta_axis`, plus two
observation fields: the suppression decision consulted for each segment's
tick labels (lines 223-224) and the decision consulted for the shared axis
label (line 235). -/
structure AxisState where
  origRange : ℚ × ℚ
  vstarts : List ℚ
  vstops : List ℚ
  rangeswitch : Option ℕ
  plottedrange : ℚ × ℚ
  deltaAxis : ℚ
  suppressLog : List Bool
  labelDecision : Option Bool
  deriving DecidableEq

/-- Settings and external collaborators feeding one draw pass.  The hide
flags and `autoMirror` come from the settings; `shouldAutoMirror` is the
result of `_shouldAutoMirror()`.  Modelled from the spec (the base axis,
file axis.py, is not under src/): `_suppressText` is a pure boolean
function of `(painter, parentposn, outerbounds)` (spec §6
`suppressText(...) -> bool`), all loop-invariant during one pass, hence a
single boolean `suppressText` here; the base drawing primitives record a
label-overflow distance in `_delta_axis` while drawing segment `i`'s tick
labels, modelled by `overflow i`; `painterOk k` says whether the k-th
painter-primitive call succeeds or raises a drawing-surface error
(spec §7). -/
structure DrawEnv where
  lineHide : Bool
  minorHide : Bool
  majorHide : Bool
  tickLabelsHide : Bool
  labelHide : Bool
  autoMirror : Bool
  shouldAutoMirror : Bool
  suppressText : Bool
  overflow : ℕ → ℚ
  painterOk : ℕ → Bool

/-- Lines 64-71 (`switchBreak`): set `rangeswitch` and substitute
`plottedrange` with the selected segment's value range; `none` restores
`orig_plottedrange`.  (The trailing `updateAxisLocation` call only moves
pixel bounds, which no claim about this routine observes.) -/
def switchBreakState (a : AxisState) (num : Option ℕ) : AxisState :=
  match num with
  | none => { a with rangeswitch := none, plottedrange := a.origRange }
  | some i =>
      { a with rangeswitch := some i,
               plottedrange := (a.vstarts.getD i 0, a.vstops.getD i 0) }

/-- One painter-primitive call: it either raises a drawing-surface error —
the `Except.error` carries the state the Python exception leaves behind,
since mutations already performed are not rolled back — or performs the
state update `upd` of the primitive and advances the call counter. -/
def paintOp (env : DrawEnv) (upd : AxisState → AxisState) (st : AxisState × ℕ) :
    Except (AxisState × ℕ) (AxisState × ℕ) :=
  if env.painterOk st.2 then .ok (upd st.1, st.2 + 1) else .error (st.1, st.2 + 1)

/-- A drawing primitive guarded by a hide setting (`if not s.X.hide`): when
hidden nothing is drawn, otherwise one painter call that does not touch the
modelled state. -/
def hideStep (env : DrawEnv) (hide : Bool) (st : AxisState × ℕ) :
    Except (AxisState × ℕ) (AxisState × ℕ) :=
  if hide then pure st else paintOp env id st

/-- The `_delta_axis` value segment `i` contributes: line 212 zeroes it and
the base tick-label drawing (which runs only when tick labels are neither
hidden nor suppressed) leaves the segment's overflow distance in it. -/
def segDelta (env : DrawEnv) (i : ℕ) : ℚ :=
  if !env.tickLabelsHide && !env.suppressText then env.overflow i else 0

/-- Lines 223-226: consult `_suppressText` and draw the segment's tick
labels unless hidden or suppressed; the base label drawing records the
label-overflow distance in `_delta_axis`. -/
def tickLabelsStep (env : DrawEnv) (i : ℕ) (st : AxisState × ℕ) :
    Except (AxisState × ℕ) (AxisState × ℕ) :=
  if !env.tickLabelsHide && !env.suppressText then
    paintOp env (fun a => { a with deltaAxis := env.overflow i }) st
  else pure st

/-- Body of the loop of `_axisDraw` (lines 205-227): switch to break `i`,
re-run `computeTicks(allowauto=False)` (pure, no painter call), project the
cached ticks (pure), zero `_delta_axis`, draw minor then major ticks unless
hidden, record the suppression decision consulted for this segment, draw
tick labels. -/
def drawSegmentBody (env : DrawEnv) (i : ℕ) (st : AxisState × ℕ) :
    Except (AxisState × ℕ) (AxisState × ℕ) := do
  let st2 := ({ switchBreakState st.1 (some i) with deltaAxis := 0 }, st.2)
  let st3 ← hideStep env env.minorHide st2
  let st4 ← hideStep env env.majorHide st3
  let st5 := ({ st4.1 with
                suppressLog := st4.1.suppressLog ++ [env.suppressText] }, st4.2)
  tickLabelsStep env i st5

/-- The loop of `_axisDraw` (lines 204-229) with its running
`max_delta = max(max_delta, self._delta_axis)` accumulator. -/
def drawSegLoop (env : DrawEnv) (idxs : List ℕ) (maxDelta : ℚ)
    (st : AxisState × ℕ) :
    Except (AxisState × ℕ) ((AxisState × ℕ) × ℚ) :=
  match idxs with
  | [] => .ok (st, maxDelta)
  | i :: rest => do
      let st1 ← drawSegmentBody env i st
      drawSegLoop env rest (max maxDelta st1.1.deltaAxis) st1

/-- Loop of `_autoMirrorDraw` (lines 169-179): per break, switch to it and
draw minor and major ticks unless hidden; no labels and no `_delta_axis`
bookkeeping on the mirrored side. -/
def mirrorSegLoop (env : DrawEnv) (idxs : List ℕ) (st : AxisState × ℕ) :
    Except (AxisState × ℕ) (AxisState × ℕ) :=
  match idxs with
  | [] => .ok st
  | i :: rest => do
      let st2 ← hideStep env env.minorHide (switchBreakState st.1 (some i), st.2)
      let st3 ← hideStep env env.majorHide st2
      mirrorSegLoop env rest st3

/-- `_autoMirrorDraw` (lines 150-181): early return when `_shouldAutoMirror`
is false; otherwise relocate to the other edge (pure geometry), draw the
axis line unless hidden, run the mirror segment loop, and finish with
`switchBreak(None)`. -/
def autoMirrorDraw (env : DrawEnv) (st : AxisState × ℕ) :
    Except (AxisState × ℕ) (AxisState × ℕ) :=
  if env.shouldAutoMirror then do
    let st1 ← hideStep env env.lineHide st
    let st2 ← mirrorSegLoop env (List.range st.1.vstarts.length) st1
    pure (switchBreakState st2.1 none, st2.2)
  else pure st

/-- Lines 234-236: the shared axis label is drawn once, unless hidden or
suppressed — the decision consulted is the `suppresstext` variable left by
the last loop iteration, which under the pure `_suppressText` model equals
`env.suppressText`. -/
def labelStep (env : DrawEnv) (st : AxisState × ℕ) :
    Except (AxisState × ℕ) (AxisState × ℕ) :=
  if !env.labelHide && !env.suppressText then paintOp env id st else pure st

/-- Lines 239-241: run the auto-mirror sub-draw when the setting asks for
it. -/
def mirrorStep (env : DrawEnv) (st : AxisState × ℕ) :
    Except (AxisState × ℕ) (AxisState × ℕ) :=
  if env.autoMirror then autoMirrorDraw env st else pure st

/-- `_axisDraw` (lines 183-248): axis line unless hidden; the segment loop;
`switchBreak(None)`, `_delta_axis = max_delta` and the label-suppression
decision for the shared label (lines 231-235); the axis label; the
auto-mirror sub-draw; finally `_drawTextWithoutOverlap` (one painter
call).  `setControlGraph` is bookkeeping on the paint helper, not a
painter primitive. -/
def axisDraw (env : DrawEnv) (a : AxisState) :
    Except (AxisState × ℕ) (AxisState × ℕ) := do
  let st1 ← hideStep env env.lineHide (a, 0)
  let r ← drawSegLoop env (List.range a.vstarts.length) 0 st1
  let st3 := ({ switchBreakState r.1.1 none with deltaAxis := r.2, labelDecision := some env.suppressText }, r.1.2)
  let st4 ← labelStep env st3
  let st5 ← mirrorStep env st4
  paintOp env id st5

/-- The axis state observable after the draw entry point returns or raises:
a Python exception does not roll back the mutations already performed. -/
def exitState : Except (AxisState × ℕ) (AxisState × ℕ) → AxisState
  | .ok (a, _) => a
  | .error (a, _) => a

/-! ### Inversion lemmas for the draw pass -/

theorem except_bind_ok {ε α β : Type} {x : Except ε α} {f : α → Except ε β} {y : β}
    (h : x >>= f = .ok y) : ∃ z, x = .ok z ∧ f z = .ok y := by
  cases x with
  | error e =>
      simp only [bind, Except.bind] at h
      exact Except.noConfusion h
  | ok z => exact ⟨z, rfl, by simpa only [bind, Except.bind] using h⟩

theorem paintOp_ok_eq {env : DrawEnv} {upd : AxisState → AxisState}
    {st st' : AxisState × ℕ} (h : paintOp env upd st = .ok st') :
    st' = (upd st.1, st.2 + 1) := by
  unfold paintOp at h
  split at h
  · exact (Except.ok.inj h).symm
  · exact Except.noConfusion h

theorem hideStep_ok {env : DrawEnv} {c : Bool} {s y : AxisState × ℕ}
    (h : hideStep env c s = .ok y) : y.1 = s.1 := by
  unfold hideStep at h
  split at h
  · cases Except.ok.inj h
    rfl
  · rw [paintOp_ok_eq h]
    rfl

theorem labelStep_ok {env : DrawEnv} {s y : AxisState × ℕ}
    (h : labelStep env s = .ok y) : y.1 = s.1 := by
  unfold labelStep at h
  split at h
  · rw [paintOp_ok_eq h]
    rfl
  · cases Except.ok.inj h
    rfl

theorem drawSegmentBody_ok_core {env : DrawEnv} {i : ℕ} {st st' : AxisState × ℕ}
    (h : drawSegmentBody env i st = .ok st') :
    st'.1 = { switchBreakState st.1 (some i) with deltaAxis := segDelta env i, suppressLog := st.1.suppressLog ++ [env.suppressText] } := by
  unfold drawSegmentBody at h
  obtain ⟨s3, h3, h⟩ := except_bind_ok h
  obtain ⟨s4, h4, h⟩ := except_bind_ok h
  have e3 : s3.1 = { switchBreakState st.1 (some i) with deltaAxis := 0 } :=
    hideStep_ok h3
  have e4 : s4.1 = s3.1 := hideStep_ok h4
  unfold tickLabelsStep at h
  unfold segDelta
  split at h
  · rename_i hc
    rw [if_pos hc]
    rw [paintOp_ok_eq h]
    rw [e4, e3]
    cases st.1 with
    | mk o vs vt rs pr da lg ld => rfl
  · rename_i hc
    rw [if_neg hc]
    cases Except.ok.inj h
    rw [e4, e3]
    cases st.1 with
    | mk o vs vt rs pr da lg ld => rfl

theorem drawSegLoop_ok {env : DrawEnv} {idxs : List ℕ} :
    ∀ {md : ℚ} {st : AxisState × ℕ} {out : (AxisState × ℕ) × ℚ},
    drawSegLoop env idxs md st = .ok out →
    out.1.1.origRange = st.1.origRange ∧
    out.1.1.labelDecision = st.1.labelDecision ∧
    out.1.1.suppressLog = st.1.suppressLog ++
        List.replicate idxs.length env.suppressText ∧
    out.2 = idxs.foldl (fun m j => max m (segDelta env j)) md := by
  induction idxs with
  | nil =>
      intro md st out h
      cases Except.ok.inj h
      simp
  | cons i rest ih =>
      intro md st out h
      unfold drawSegLoop at h
      obtain ⟨s1, h1, h⟩ := except_bind_ok h
      have hcore := drawSegmentBody_ok_core h1
      have hrest := ih h
      have hd : s1.1.deltaAxis = segDelta env i := by rw [hcore]
      refine ⟨?_, ?_, ?_, ?_⟩
      · rw [hrest.1, hcore]
        cases st.1 with
        | mk o vs vt rs pr da lg ld => rfl
      · rw [hrest.2.1, hcore]
        cases st.1 with
        | mk o vs vt rs pr da lg ld => rfl
      · rw [hrest.2.2.1, hcore]
        cases st.1 with
        | mk o vs vt rs pr da lg ld =>
            simp [switchBreakState, List.replicate_succ]
      · rw [hrest.2.2.2, hd]
        rfl

theorem mirrorSegLoop_ok {env : DrawEnv} {idxs : List ℕ} :
    ∀ {st st' : AxisState × ℕ}, mirrorSegLoop env idxs st = .ok st' →
    st'.1.origRange = st.1.origRange ∧ st'.1.deltaAxis = st.1.deltaAxis ∧
    st'.1.suppressLog = st.1.suppressLog ∧
    st'.1.labelDecision = st.1.labelDecision := by
  induction idxs with
  | nil =>
      intro st st' h
      cases Except.ok.inj h
      exact ⟨rfl, rfl, rfl, rfl⟩
  | cons i rest ih =>
      intro st st' h
      unfold mirrorSegLoop at h
      obtain ⟨s2, h2, h⟩ := except_bind_ok h
      obtain ⟨s3, h3, h⟩ := except_bind_ok h
      have e2 : s2.1 = switchBreakState st.1 (some i) := hideStep_ok h2
      have e3 : s3.1 = s2.1 := hideStep_ok h3
      have hrest := ih h
      rw [hrest.1, hrest.2.1, hrest.2.2.1, hrest.2.2.2, e3, e2]
      cases st.1 with
      | mk o vs vt rs pr da lg ld => exact ⟨rfl, rfl, rfl, rfl⟩

theorem autoMirrorDraw_ok {env : DrawEnv} {st st' : AxisState × ℕ}
    (h : autoMirrorDraw env st = .ok st')
    (hin : st.1.rangeswitch = none ∧ st.1.plottedrange = st.1.origRange) :
    st'.1.origRange = st.1.origRange ∧ st'.1.deltaAxis = st.1.deltaAxis ∧
    st'.1.suppressLog = st.1.suppressLog ∧
    st'.1.labelDecision = st.1.labelDecision ∧
    st'.1.rangeswitch = none ∧ st'.1.plottedrange = st.1.origRange := by
  unfold autoMirrorDraw at h
  split at h
  · obtain ⟨s1, h1, h⟩ := except_bind_ok h
    obtain ⟨s2, h2, h⟩ := except_bind_ok h
    have e1 : s1.1 = st.1 := hideStep_ok h1
    have hm2 := mirrorSegLoop_ok h2
    cases Except.ok.inj h
    rw [e1] at hm2
    cases hs2 : s2.1 with
    | mk o vs vt rs pr da lg ld =>
        rw [hs2] at hm2
        exact ⟨hm2.1, hm2.2.1, hm2.2.2.1, hm2.2.2.2, rfl, hm2.1⟩
  · cases Except.ok.inj h
    exact ⟨rfl, rfl, rfl, rfl, hin.1, hin.2⟩

theorem axisDraw_ok_fields {env : DrawEnv} {a : AxisState} {st : AxisState × ℕ}
    (h : axisDraw env a = .ok st) :
    st.1.rangeswitch = none ∧
    st.1.plottedrange = a.origRange ∧
    st.1.deltaAxis = (List.range a.vstarts.length).foldl
        (fun m j => max m (segDelta env j)) 0 ∧
    st.1.suppressLog = a.suppressLog ++
        List.replicate a.vstarts.length env.suppressText ∧
    st.1.labelDecision = some env.suppressText := by
  unfold axisDraw at h
  obtain ⟨s1, h1, h⟩ := except_bind_ok h
  obtain ⟨r, h2, h⟩ := except_bind_ok h
  obtain ⟨s4, h4, h⟩ := except_bind_ok h
  obtain ⟨s5, h5, h6⟩ := except_bind_ok h
  have e1 : s1.1 = a := hideStep_ok h1
  have hl := drawSegLoop_ok h2
  have e4 : s4.1 = { switchBreakState r.1.1 none with deltaAxis := r.2, labelDecision := some env.suppressText } := labelStep_ok h4
  have e4fields : s4.1.origRange = r.1.1.origRange ∧ s4.1.rangeswitch = none ∧
      s4.1.plottedrange = r.1.1.origRange ∧ s4.1.deltaAxis = r.2 ∧
      s4.1.suppressLog = r.1.1.suppressLog ∧
      s4.1.labelDecision = some env.suppressText := by
    rw [e4]
    cases r.1.1 with
    | mk o vs vt rs pr da lg ld => exact ⟨rfl, rfl, rfl, rfl, rfl, rfl⟩
  have e5 : s5.1.origRange = s4.1.origRange ∧ s5.1.deltaAxis = s4.1.deltaAxis ∧
      s5.1.suppressLog = s4.1.suppressLog ∧
      s5.1.labelDecision = s4.1.labelDecision ∧
      s5.1.rangeswitch = none ∧ s5.1.plottedrange = s4.1.origRange := by
    unfold mirrorStep at h5
    split at h5
    · exact autoMirrorDraw_ok h5
        ⟨e4fields.2.1, by rw [e4fields.2.2.1, e4fields.1]⟩
    · cases Except.ok.inj h5
      exact ⟨rfl, rfl, rfl, rfl, e4fields.2.1,
        by rw [e4fields.2.2.1, e4fields.1]⟩
  have e6 : st.1 = s5.1 := by
    rw [paintOp_ok_eq h6]
    rfl
  refine ⟨?_, ?_, ?_, ?_, ?_⟩
  · rw [e6]
    exact e5.2.2.2.2.1
  · rw [e6, e5.2.2.2.2.2, e4fields.1, hl.1, e1]
  · rw [e6, e5.2.1, e4fields.2.2.2.1, hl.2.2.2]
  · rw [e6, e5.2.2.1, e4fields.2.2.2.2.1, hl.2.2.1, e1]
    simp
  · rw [e6, e5.2.2.2.1, e4fields.2.2.2.2.2]

/-! ### Success of the draw pass under an error-free painter -/

theorem bind_isOk {ε α β : Type} {x : Except ε α} {f : α → Except ε β}
    (hx : ∃ z, x = .ok z) (hf : ∀ z, ∃ y, f z = .ok y) :
    ∃ y, x >>= f = .ok y := by
  obtain ⟨z, hz⟩ := hx
  obtain ⟨y, hy⟩ := hf z
  refine ⟨y, ?_⟩
  rw [hz]
  simpa only [bind, Except.bind] using hy

theorem paintOp_allok {env : DrawEnv} (hok : ∀ k, env.painterOk k = true)
    (upd : AxisState → AxisState) (st : AxisState × ℕ) :
    paintOp env upd st = .ok (upd st.1, st.2 + 1) := by
  unfold paintOp
  rw [if_pos (hok st.2)]

theorem hideStep_isOk {env : DrawEnv} (hok : ∀ k, env.painterOk k = true)
    (c : Bool) (st : AxisState × ℕ) : ∃ y, hideStep env c st = .ok y := by
  unfold hideStep
  cases c with
  | false => exact ⟨(st.1, st.2 + 1), by rw [if_neg (by simp)]; exact paintOp_allok hok id st⟩
  | true => exact ⟨st, by rw [if_pos rfl]; rfl⟩

theorem tickLabelsStep_isOk {env : DrawEnv} (hok : ∀ k, env.painterOk k = true)
    (i : ℕ) (st : AxisState × ℕ) : ∃ y, tickLabelsStep env i st = .ok y := by
  unfold tickLabelsStep
  cases hc : (!env.tickLabelsHide && !env.suppressText) with
  | false => exact ⟨st, by rw [if_neg (by simp)]; rfl⟩
  | true =>
      exact ⟨({ st.1 with deltaAxis := env.overflow i }, st.2 + 1),
        by rw [if_pos rfl]; exact paintOp_allok hok _ st⟩

theorem labelStep_isOk {env : DrawEnv} (hok : ∀ k, env.painterOk k = true)
    (st : AxisState × ℕ) : ∃ y, labelStep env st = .ok y := by
  unfold labelStep
  cases hc : (!env.labelHide && !env.suppressText) with
  | false => exact ⟨st, by rw [if_neg (by simp)]; rfl⟩
  | true => exact ⟨(st.1, st.2 + 1), by rw [if_pos rfl]; exact paintOp_allok hok id st⟩

theorem drawSegmentBody_isOk {env : DrawEnv} (hok : ∀ k, env.painterOk k = true)
    (i : ℕ) (st : AxisState × ℕ) : ∃ y, drawSegmentBody env i st = .ok y := by
  unfold drawSegmentBody
  exact bind_isOk (hideStep_isOk hok _ _) (fun z =>
    bind_isOk (hideStep_isOk hok _ _) (fun w => tickLabelsStep_isOk hok i _))

theorem drawSegLoop_isOk {env : DrawEnv} (hok : ∀ k, env.painterOk k = true)
    (idxs : List ℕ) : ∀ (md : ℚ) (st : AxisState × ℕ),
    ∃ out, drawSegLoop env idxs md st = .ok out := by
  induction idxs with
  | nil => intro md st; exact ⟨(st, md), rfl⟩
  | cons i rest ih =>
      intro md st
      unfold drawSegLoop
      exact bind_isOk (drawSegmentBody_isOk hok i st) (fun z => ih _ z)

theorem mirrorSegLoop_isOk {env : DrawEnv} (hok : ∀ k, env.painterOk k = true)
    (idxs : List ℕ) : ∀ (st : AxisState × ℕ),
    ∃ y, mirrorSegLoop env idxs st = .ok y := by
  induction idxs with
  | nil => intro st; exact ⟨st, rfl⟩
  | cons i rest ih =>
      intro st
      unfold mirrorSegLoop
      exact bind_isOk (hideStep_isOk hok _ _) (fun z =>
        bind_isOk (hideStep_isOk hok _ _) (fun w => ih w))

theorem autoMirrorDraw_isOk {env : DrawEnv} (hok : ∀ k, env.painterOk k = true)
    (st : AxisState × ℕ) : ∃ y, autoMirrorDraw env st = .ok y := by
  unfold autoMirrorDraw
  cases hm : env.shouldAutoMirror with
  | false => exact ⟨st, by rw [if_neg (by simp)]; rfl⟩
  | true =>
      rw [if_pos rfl]
      exact bind_isOk (hideStep_isOk hok _ _) (fun z =>
        bind_isOk (mirrorSegLoop_isOk hok _ z) (fun w => ⟨_, rfl⟩))

theorem mirrorStep_isOk {env : DrawEnv} (hok : ∀ k, env.painterOk k = true)
    (st : AxisState × ℕ) : ∃ y, mirrorStep env st = .ok y := by
  unfold mirrorStep
  cases hm : env.autoMirror with
  | false => exact ⟨st, by rw [if_neg (by simp)]; rfl⟩
  | true =>
      rw [if_pos rfl]
      exact autoMirrorDraw_isOk hok st

theorem axisDraw_isOk {env : DrawEnv} (hok : ∀ k, env.painterOk k = true)
    (a : AxisState) : ∃ st, axisDraw env a = .ok st := by
  unfold axisDraw
  exact bind_isOk (hideStep_isOk hok _ _) (fun s1 =>
    bind_isOk (drawSegLoop_isOk hok _ _ s1) (fun r =>
      bind_isOk (labelStep_isOk hok _) (fun s4 =>
        bind_isOk (mirrorStep_isOk hok s4) (fun s5 =>
          ⟨_, paintOp_allok hok id s5⟩))))

/-! ### Claim theorems for the draw pass -/

/-- Claim C6 (amended): whenever the draw entry point returns normally —
no drawing-surface error propagates; this includes the auto-mirror early
return and every hide-flag combination — the active-segment flag is
restored to `none` and the externally observable plotted range equals the
pre-draw unbroken range.  The original claim also asserted this for the
exceptional exit path; that part is refuted by the counterexample, since
`_axisDraw` has no try/finally around its loops. -/
theorem draw_restores_unbroken_state (env : DrawEnv) (a : AxisState)
    (st : AxisState × ℕ) (h : axisDraw env a = .ok st) :
    st.1.rangeswitch = none ∧ st.1.plottedrange = a.origRange :=
  ⟨(axisDraw_ok_fields h).1, (axisDraw_ok_fields h).2.1⟩

/-- A draw environment whose painter fails at its first call; the axis
line is hidden, so the first painter call is the minor-tick drawing of
segment 0, i.e. the drawing-surface error is raised mid-loop. -/
def failEnv : DrawEnv :=
  { lineHide := true, minorHide := false, majorHide := false,
    tickLabelsHide := false, labelHide := false, autoMirror := false,
    shouldAutoMirror := false, suppressText := false,
    overflow := fun _ => 0, painterOk := fun _ => false }

/-- The two-segment axis state `computePlottedRange` produces for
`fullRange = (0, 100)` and `breakPoints = [20, 40]`. -/
def twoSegAxis : AxisState :=
  { origRange := (0, 100), vstarts := [0, 40], vstops := [20, 100],
    rangeswitch := none, plottedrange := (0, 100), deltaAxis := 0,
    suppressLog := [], labelDecision := none }

/-- Claim C6 counterexample: when a drawing-surface error is raised
mid-loop (here: while drawing segment 0's minor ticks), the draw entry
point exits with the active-segment flag still set to segment 0 and the
observable plotted range narrowed to that segment's value range `(0, 20)`,
not the pre-draw unbroken range `(0, 100)`: there is no try/finally, so
the claim's error-path half is false on the code. -/
theorem draw_error_leaves_segment_active :
    (exitState (axisDraw failEnv twoSegAxis)).rangeswitch = some 0 ∧
    (exitState (axisDraw failEnv twoSegAxis)).plottedrange = (0, 20) ∧
    (exitState (axisDraw failEnv twoSegAxis)).plottedrange ≠ twoSegAxis.origRange := by
  refine ⟨rfl, rfl, by decide⟩

/-- Claim C6 witness: a concrete error-free pass over a three-break-free
axis restores the flag and range. -/
def okEnv : DrawEnv :=
  { lineHide := false, minorHide := false, majorHide := false,
    tickLabelsHide := false, labelHide := false, autoMirror := true,
    shouldAutoMirror := true, suppressText := false,
    overflow := fun i => [3, 7, 2].getD i 0, painterOk := fun _ => true }

/-- A three-segment axis state with pre-draw unbroken range `(0, 100)`. -/
def threeSegAxis : AxisState :=
  { origRange := (0, 100), vstarts := [0, 30, 60], vstops := [10, 40, 100],
    rangeswitch := none, plottedrange := (0, 100), deltaAxis := 0,
    suppressLog := [], labelDecision := none }

theorem draw_restores_unbroken_state_witness :
    (exitState (axisDraw okEnv threeSegAxis)).rangeswitch = none ∧
    (exitState (axisDraw okEnv threeSegAxis)).plottedrange = threeSegAxis.origRange := by
  obtain ⟨st, hst⟩ := @axisDraw_isOk okEnv (fun _ => rfl) threeSegAxis
  have h := draw_restores_unbroken_state okEnv threeSegAxis st hst
  rw [hst]
  exact h

theorem foldl_max_bounds (l : List ℚ) : ∀ m : ℚ,
    m ≤ l.foldl max m ∧ ∀ x ∈ l, x ≤ l.foldl max m := by
  induction l with
  | nil =>
      intro m
      exact ⟨le_refl m, by simp⟩
  | cons x xs ih =>
      intro m
      refine ⟨le_trans (le_max_left m x) (ih (max m x)).1, ?_⟩
      intro y hy
      rcases List.mem_cons.mp hy with h | h
      · subst h
        exact le_trans (le_max_right m y) (ih (max m y)).1
      · exact (ih (max m x)).2 y h

/-- Claim C7: over one completed draw pass with tick labels drawn, the
orchestrator records as `_delta_axis` the running maximum of the
per-segment label-overflow distances — an upper bound of every segment's
overflow, hence neither the sum nor merely the last value. -/
theorem draw_records_max_overflow (env : DrawEnv) (a : AxisState)
    (st : AxisState × ℕ) (h : axisDraw env a = .ok st)
    (hlab : env.tickLabelsHide = false) (hsup : env.suppressText = false) :
    st.1.deltaAxis = ((List.range a.vstarts.length).map env.overflow).foldl max 0 ∧
    ∀ i < a.vstarts.length, env.overflow i ≤ st.1.deltaAxis := by
  have hd := (axisDraw_ok_fields h).2.2.1
  have hseg : ∀ j : ℕ, segDelta env j = env.overflow j := by
    intro j
    simp [segDelta, hlab, hsup]
  have hfold : ((List.range a.vstarts.length).map env.overflow).foldl max 0
      = (List.range a.vstarts.length).foldl (fun m j => max m (segDelta env j)) 0 := by
    rw [List.foldl_map]
    simp only [hseg]
  constructor
  · rw [hd, hfold]
  · intro i hi2
    rw [hd, ← hfold]
    exact (foldl_max_bounds _ 0).2 (env.overflow i)
      (List.mem_map_of_mem env.overflow (List.mem_range.mpr hi2))

theorem draw_records_max_overflow_witness :
    (exitState (axisDraw okEnv threeSegAxis)).deltaAxis = 7 := by
  obtain ⟨st, hst⟩ := @axisDraw_isOk okEnv (fun _ => rfl) threeSegAxis
  have h := draw_records_max_overflow okEnv threeSegAxis st hst rfl rfl
  rw [hst]
  show st.1.deltaAxis = 7
  rw [h.1]
  decide

/-- Claim C9: under the pure `_suppressText` model (a function of
arguments that are invariant across the segment loop), one draw pass
consults the same suppression decision for every segment's tick labels and
for the shared axis label: the recorded per-segment decisions are all
equal to `env.suppressText`, and so is the decision consulted for the
label. -/
theorem suppression_uniform_across_segments (env : DrawEnv) (a : AxisState)
    (st : AxisState × ℕ) (h : axisDraw env a = .ok st)
    (hlog : a.suppressLog = []) :
    st.1.suppressLog = List.replicate a.vstarts.length env.suppressText ∧
    st.1.labelDecision = some env.suppressText ∧
    ∀ b ∈ st.1.suppressLog, b = env.suppressText := by
  have hf := axisDraw_ok_fields h
  refine ⟨by rw [hf.2.2.2.1, hlog]; simp, hf.2.2.2.2, ?_⟩
  intro b hb
  rw [hf.2.2.2.1, hlog] at hb
  simp only [List.nil_append] at hb
  exact List.eq_of_mem_replicate hb

theorem suppression_uniform_witness :
    (exitState (axisDraw okEnv threeSegAxis)).suppressLog = [false, false, false] ∧
    (exitState (axisDraw okEnv threeSegAxis)).labelDecision = some false := by
  obtain ⟨st, hst⟩ := @axisDraw_isOk okEnv (fun _ => rfl) threeSegAxis
  have h := suppression_uniform_across_segments okEnv threeSegAxis st hst rfl
  rw [hst]
  exact ⟨h.1, h.2.1⟩

/-! ### Per-segment tick generation (`computePlottedRange` lines 139-148) -/

/-- Modelled from the spec: the base-axis tick generator
(`Axis.computeTicks`, file axis.py, not under src/) is a pure function of
the requested value range (spec §2 TickGenerator); called with
`allowauto=False` it must not extend the requested range (spec §4.2 and
glossary "Allow-auto"), so it is modelled as uniform subdivisions inside
the range: 5 major ticks at quarters and 9 minor ticks at eighths. -/
def computeTicksNoAuto (lo hi : ℚ) : List ℚ × List ℚ :=
  ((List.range 5).map (fun (j : ℕ) => lo + (hi - lo) * (j : ℚ) / 4),
   (List.range 9).map (fun (j : ℕ) => lo + (hi - lo) * (j : ℚ) / 8))

/-- Lines 139-146: for each break range substitute `plottedrange` and call
`computeTicks(allowauto=False)`, collecting the per-segment major tick
lists. -/
def majorticklist (lo hi : ℚ) (points : List ℚ) : List (List ℚ) :=
  (List.range (breakvnum points)).map (fun i =>
    (computeTicksNoAuto ((breakvstarts lo hi points).getD i 0)
      ((breakvstops lo hi points).getD i 0)).1)

/-- Lines 139-146: the per-segment minor tick lists. -/
def minorticklist (lo hi : ℚ) (points : List ℚ) : List (List ℚ) :=
  (List.range (breakvnum points)).map (fun i =>
    (computeTicksNoAuto ((breakvstarts lo hi points).getD i 0)
      ((breakvstops lo hi points).getD i 0)).2)

theorem computeTicksNoAuto_mem_bounds {lo hi t : ℚ} (hle : lo ≤ hi)
    (ht : t ∈ (computeTicksNoAuto lo hi).1 ∨ t ∈ (computeTicksNoAuto lo hi).2) :
    lo ≤ t ∧ t ≤ hi := by
  have hd : (0:ℚ) ≤ hi - lo := sub_nonneg.mpr hle
  rcases ht with h | h
  · simp only [computeTicksNoAuto, List.mem_map, List.mem_range] at h
    obtain ⟨j, hj, rfl⟩ := h
    have hj4 : (j:ℚ) ≤ 4 := by exact_mod_cast Nat.lt_succ_iff.mp hj
    have hjn : (0:ℚ) ≤ (j:ℚ) := Nat.cast_nonneg j
    constructor
    · nlinarith [mul_nonneg hd hjn]
    · nlinarith [mul_nonneg hd (by linarith : (0:ℚ) ≤ 4 - (j:ℚ))]
  · simp only [computeTicksNoAuto, List.mem_map, List.mem_range] at h
    obtain ⟨j, hj, rfl⟩ := h
    have hj8 : (j:ℚ) ≤ 8 := by exact_mod_cast Nat.lt_succ_iff.mp hj
    have hjn : (0:ℚ) ≤ (j:ℚ) := Nat.cast_nonneg j
    constructor
    · nlinarith [mul_nonneg hd hjn]
    · nlinarith [mul_nonneg hd (by linarith : (0:ℚ) ≤ 8 - (j:ℚ))]

/-- Claim C8: the per-segment tick lists are computed by invoking the tick
generator on each segment's value range with automatic range extension
disabled, and consequently every returned major and minor tick value of
segment `i` lies within `[breakvstarts[i], breakvstops[i]]` inclusive. -/
theorem ticks_within_segment_range (lo hi : ℚ) (points : List ℚ) (i : ℕ) (t : ℚ)
    (hn : i < breakvnum points)
    (hle : (breakvstarts lo hi points).getD i 0 ≤ (breakvstops lo hi points).getD i 0)
    (ht : t ∈ (majorticklist lo hi points).getD i [] ∨
          t ∈ (minorticklist lo hi points).getD i []) :
    (breakvstarts lo hi points).getD i 0 ≤ t ∧
    t ≤ (breakvstops lo hi points).getD i 0 := by
  have hmaj : (majorticklist lo hi points).getD i [] =
      (computeTicksNoAuto ((breakvstarts lo hi points).getD i 0)
        ((breakvstops lo hi points).getD i 0)).1 := by
    unfold majorticklist
    exact getD_range_map _ _ hn
  have hmin : (minorticklist lo hi points).getD i [] =
      (computeTicksNoAuto ((breakvstarts lo hi points).getD i 0)
        ((breakvstops lo hi points).getD i 0)).2 := by
    unfold minorticklist
    exact getD_range_map _ _ hn
  apply computeTicksNoAuto_mem_bounds hle
  rcases ht with h | h
  · left
    rwa [hmaj] at h
  · right
    rwa [hmin] at h

theorem ticks_within_segment_range_witness :
    (breakvstarts 0 100 [20, 40]).getD 0 0 ≤ 5 ∧
    (5:ℚ) ≤ (breakvstops 0 100 [20, 40]).getD 0 0 := by
  refine ticks_within_segment_range 0 100 [20, 40] 0 5 (by decide) (by decide) ?_
  left
  norm_num [majorticklist, computeTicksNoAuto, breakvstarts, breakvstops,
    breakvnum, breakvlist, List.range_succ]

/-! ### Witnesses for the segmentation claims -/

theorem segmentation_counts_and_value_ranges_witness :
    (segments 0 100 [20, 40, 7] []).length = 2 ∧
    segments 0 100 ([20, 40, (7:ℚ)].take 2) [] = segments 0 100 [20, 40, 7] [] := by
  have h := segmentation_counts_and_value_ranges 0 100 [20, 40, 7] [] 0 (by decide)
  exact ⟨h.1, h.2.2⟩

theorem position_lists_and_gap_witness :
    (posstarts [1/2]).getD 1 0 - (posstops [1/2]).getD 0 0 = breakgap := by
  have h := position_lists_and_gap [1/2] 0 (by decide)
  exact h.2.2.2.2.2

theorem position_lists_safe_indexing_witness :
    (posstarts (resolvePosns [20, 40] [])).length = 2 ∧
    (posstops (resolvePosns [20, 40] [])).length = 2 := by
  have h := position_lists_safe_indexing 0 100 [20, 40] [] 0 (by decide)
  exact ⟨h.1, h.2.1⟩

end AxisBroken
